import Mathlib

/-
Verification of the aether-proxy core against its specification.

The Rust sources under src/aether-proxy/src are shallowly embedded:
Rust `&str` values become `List Char` (`Str`), bytes become `Fin 256`
(`Byte`), machine integers become `Nat` with explicit saturation where
the source saturates, and fallible code returns `Option`/`Except`.
Library functions that are not part of this repository (base64 decode,
UTF-8 validation, HMAC-SHA256) are abstracted as function parameters;
everything else is translated line by line from the source files named
in the comments.
-/

/-- Bytes of the embedded program (Rust `u8`). -/
abbrev Byte := Fin 256

/-- Rust `&str` / `String` values, embedded as their character lists. -/
abbrev Str := List Char

/-- Model of Rust `str::strip_prefix`: remove `p` from the front of `s`,
returning `none` when `s` does not start with `p`. -/
def dropPfx : Str → Str → Option Str
  | [], s => some s
  | _ :: _, [] => none
  | p :: ps, c :: cs => if c = p then dropPfx ps cs else none

/-- Model of Rust `str::split_once(c)`: split at the first occurrence of the
character `c`, returning the parts before and after it. -/
def splitOnce (s : Str) (c : Char) : Option (Str × Str) :=
  match s with
  | [] => none
  | x :: xs =>
    if x = c then some ([], xs)
    else
      match splitOnce xs c with
      | some (a, b) => some (x :: a, b)
      | none => none

/-- ASCII members of the Unicode White_Space class tested by Rust
`char::is_whitespace` (the header values the proxy trims are ASCII). -/
def isRustWhitespace (c : Char) : Bool :=
  c = ' ' || c = '\t' || c = '\n' || c = '\r' || c = '\x0b' || c = '\x0c'

/-- Model of Rust `str::trim`: drop whitespace from both ends. -/
def rustTrim (s : Str) : Str :=
  ((s.dropWhile isRustWhitespace).reverse.dropWhile isRustWhitespace).reverse

/-- Decide whether a character is an ASCII decimal digit. -/
def isAsciiDigit (c : Char) : Bool :=
  48 ≤ c.toNat && c.toNat ≤ 57

/-- Numeric value of a list of ASCII decimal digits, most significant first. -/
def decDigitsValue (l : Str) : Nat :=
  l.foldl (fun acc c => acc * 10 + (c.toNat - 48)) 0

/-- Model of Rust `str::parse::<u64>`: an optional leading plus sign, one or
more ASCII digits, overflow-checked against `2^64`. -/
def parseU64 (s : Str) : Option Nat :=
  let digits := if s.head? = some '+' then s.tail else s
  if digits.isEmpty = true then none
  else if digits.all isAsciiDigit = true then
    if decDigitsValue digits < 18446744073709551616 then
      some (decDigitsValue digits)
    else none
  else none

/-- Model of Rust `u64::abs_diff`. -/
def absDiff (a b : Nat) : Nat :=
  if b ≤ a then a - b else b - a

/-- Lowercase hexadecimal digit for a value below 16 (hex crate alphabet). -/
def hexDigit (n : Nat) : Char :=
  if n < 10 then Char.ofNat (48 + n) else Char.ofNat (87 + n)

/-- Model of `hex::encode`: two lowercase hex characters per byte. -/
def hexEncode (bs : List Byte) : Str :=
  bs.flatMap (fun b => [hexDigit (b.val / 16), hexDigit (b.val % 16)])

/-- UTF-8 encoding of one Unicode scalar value (model of the byte view that
Rust `str::as_bytes` exposes for one character). -/
def utf8Char (c : Char) : List Nat :=
  if c.toNat < 128 then [c.toNat]
  else if c.toNat < 2048 then
    [192 + c.toNat / 64, 128 + c.toNat % 64]
  else if c.toNat < 65536 then
    [224 + c.toNat / 4096, 128 + (c.toNat / 64) % 64, 128 + c.toNat % 64]
  else
    [240 + c.toNat / 262144, 128 + (c.toNat / 4096) % 64,
      128 + (c.toNat / 64) % 64, 128 + c.toNat % 64]

/-- Model of Rust `str::as_bytes`: the UTF-8 bytes of a string. -/
def utf8Bytes (s : Str) : List Nat :=
  s.flatMap utf8Char

/-- Model of the `subtle` crate's constant-time slice equality `ct_eq`
followed by `unwrap_u8() == 1`: the bitwise OR of the XOR of every byte
pair is accumulated without short-circuiting, and the result is 1 exactly
when the accumulator is zero (lengths are compared separately). -/
def subtleCtEq (a b : List Nat) : Bool :=
  a.length == b.length &&
    ((a.zip b).foldl (fun acc p => acc ||| (p.1 ^^^ p.2)) 0 == 0)

/-- Error kinds of the auth verifier (src/aether-proxy/src/auth/hmac.rs,
`enum AuthError`). -/
inductive AuthError where
  | MissingHeader
  | InvalidBasicAuth
  | InvalidUsername
  | InvalidPasswordFormat
  | TimestampParseError
  | TimestampExpired
  | SignatureMismatch
deriving DecidableEq, Repr

/-- Display strings of `AuthError` (hmac.rs `impl Display`; the source texts
containing apostrophes are reproduced without the quote characters). -/
def authErrorMessage : AuthError → Str
  | .MissingHeader => "missing Proxy-Authorization header".toList
  | .InvalidBasicAuth => "invalid Basic auth encoding".toList
  | .InvalidUsername => "username must be hmac".toList
  | .InvalidPasswordFormat => "password format must be timestamp.signature".toList
  | .TimestampParseError => "invalid timestamp".toList
  | .TimestampExpired => "timestamp outside tolerance window".toList
  | .SignatureMismatch => "HMAC signature mismatch".toList

/-- Credential validation stage of `validate_proxy_auth` (hmac.rs lines
58-107): everything after the `Basic `/`basic ` scheme token has been
stripped. `b64decode` abstracts `base64::engine::general_purpose::STANDARD
.decode`, `fromUtf8` abstracts `String::from_utf8`, and `hmacSha256`
abstracts `Hmac<Sha256>` keyed with the first argument over the second.
`now` is the sampled system clock in Unix seconds. -/
def validate_credential
    (b64decode : Str → Option (List Byte))
    (fromUtf8 : List Byte → Option Str)
    (hmacSha256 : Str → Str → List Byte)
    (encoded : Str) (hmac_key node_id : Str)
    (timestamp_tolerance now : Nat) : Except AuthError Unit :=
  match b64decode (rustTrim encoded) with
  | none => .error .InvalidBasicAuth
  | some decoded_bytes =>
    match fromUtf8 decoded_bytes with
    | none => .error .InvalidBasicAuth
    | some decoded =>
      match splitOnce decoded ':' with
      | none => .error .InvalidBasicAuth
      | some (username, password) =>
        if username ≠ "hmac".toList then .error .InvalidUsername
        else
          match splitOnce password '.' with
          | none => .error .InvalidPasswordFormat
          | some (timestamp_str, signature_hex) =>
            match parseU64 timestamp_str with
            | none => .error .TimestampParseError
            | some timestamp =>
              if timestamp_tolerance < absDiff now timestamp then
                .error .TimestampExpired
              else
                -- payload = timestamp_str, newline, node_id; expected_hex is
                -- its keyed MAC in lowercase hex; both sides are compared as
                -- their UTF-8 bytes (`as_bytes`), guarded by length
                if (utf8Bytes signature_hex).length ≠
                    (utf8Bytes (hexEncode
                      (hmacSha256 hmac_key (timestamp_str ++ '\n' :: node_id)))).length ∨
                    subtleCtEq (utf8Bytes signature_hex)
                      (utf8Bytes (hexEncode
                        (hmacSha256 hmac_key (timestamp_str ++ '\n' :: node_id)))) = false then
                  .error .SignatureMismatch
                else .ok ()

/-- Embedding of `validate_proxy_auth` (hmac.rs lines 45-108). The scheme
token is stripped exactly as in the source: `strip_prefix("Basic ")` then
`strip_prefix("basic ")`. -/
def validate_proxy_auth
    (b64decode : Str → Option (List Byte))
    (fromUtf8 : List Byte → Option Str)
    (hmacSha256 : Str → Str → List Byte)
    (proxy_auth_header : Option Str)
    (hmac_key node_id : Str)
    (timestamp_tolerance now : Nat) : Except AuthError Unit :=
  match proxy_auth_header with
  | none => .error .MissingHeader
  | some header =>
    match dropPfx "Basic ".toList header with
    | some encoded =>
      validate_credential b64decode fromUtf8 hmacSha256 encoded
        hmac_key node_id timestamp_tolerance now
    | none =>
      match dropPfx "basic ".toList header with
      | some encoded =>
        validate_credential b64decode fromUtf8 hmacSha256 encoded
          hmac_key node_id timestamp_tolerance now
      | none => .error .InvalidBasicAuth

/-- Stripping a literal prefix from a string that carries it yields the rest. -/
theorem dropPfx_append (p s : Str) : dropPfx p (p ++ s) = some s := by
  induction p with
  | nil => rfl
  | cons c cs ih => simp [dropPfx, ih]

/-- Splitting on a character absent from the part before it finds exactly
that occurrence. -/
theorem splitOnce_append (pre post : Str) (c : Char) (h : c ∉ pre) :
    splitOnce (pre ++ c :: post) c = some (pre, post) := by
  induction pre with
  | nil => simp [splitOnce]
  | cons x xs ih =>
    simp only [List.mem_cons, not_or] at h
    have hx : ¬(x = c) := fun hh => h.1 hh.symm
    simp [splitOnce, hx, ih h.2]

/-- A successful parse means the digit list passed the all-digits check. -/
theorem parseU64_digits (l : Str) (v : Nat)
    (h : (if l.isEmpty = true then none
          else if l.all isAsciiDigit = true then
            if decDigitsValue l < 18446744073709551616 then
              some (decDigitsValue l)
            else none
          else none) = some v) :
    ∀ d ∈ l, isAsciiDigit d = true := by
  split at h
  · exact absurd h (by simp)
  · split at h
    · next hall => exact fun d hd => List.all_eq_true.mp hall d hd
    · exact absurd h (by simp)

/-- Every character of a successfully parsed u64 literal is a plus sign or
an ASCII digit. -/
theorem parseU64_chars (s : Str) (v : Nat) (h : parseU64 s = some v) :
    ∀ c ∈ s, c = '+' ∨ isAsciiDigit c = true := by
  intro c hc
  simp only [parseU64] at h
  by_cases hh : s.head? = some '+'
  · rw [if_pos hh] at h
    cases s with
    | nil => simp at hh
    | cons x xs =>
      simp only [List.head?_cons, Option.some.injEq] at hh
      subst hh
      simp only [List.tail_cons] at h
      rcases List.mem_cons.mp hc with rfl | hcx
      · exact Or.inl rfl
      · exact Or.inr (parseU64_digits xs v h c hcx)
  · rw [if_neg hh] at h
    exact Or.inr (parseU64_digits s v h c hc)

/-- Bitwise OR of naturals is zero exactly when both are zero. -/
theorem nat_or_eq_zero (a b : Nat) : a ||| b = 0 ↔ a = 0 ∧ b = 0 := by
  constructor
  · intro h
    have h' : ∀ i, (a.testBit i || b.testBit i) = false := by
      intro i
      have := congrArg (fun x => Nat.testBit x i) h
      simpa [Nat.testBit_lor] using this
    refine ⟨Nat.eq_of_testBit_eq fun i => ?_, Nat.eq_of_testBit_eq fun i => ?_⟩ <;>
      · have := h' i
        simp at this ⊢
        tauto
  · rintro ⟨rfl, rfl⟩
    rfl

/-- The accumulated OR of XORed pairs is zero exactly when the accumulator is
zero and every pair agrees: the comparison examines every position. -/
theorem orFold_eq_zero (l : List (Nat × Nat)) (x : Nat) :
    l.foldl (fun acc p => acc ||| (p.1 ^^^ p.2)) x = 0 ↔
      x = 0 ∧ ∀ p ∈ l, p.1 = p.2 := by
  induction l generalizing x with
  | nil => simp
  | cons hd tl ih =>
    simp only [List.foldl_cons, ih, nat_or_eq_zero, Nat.xor_eq_zero, List.mem_cons]
    constructor
    · rintro ⟨⟨hx, hhd⟩, htl⟩
      exact ⟨hx, fun p hp => hp.elim (fun e => e ▸ hhd) (htl p)⟩
    · rintro ⟨hx, hall⟩
      exact ⟨⟨hx, hall hd (Or.inl rfl)⟩, fun p hp => hall p (Or.inr hp)⟩

/-- Zipped lists of equal length whose pairs all agree are equal. -/
theorem zip_forall_eq (a : List Nat) (b : List Nat) (hl : a.length = b.length)
    (h : ∀ p ∈ a.zip b, p.1 = p.2) : a = b := by
  induction a generalizing b with
  | nil => cases b <;> simp_all
  | cons x xs ih =>
    cases b with
    | nil => simp at hl
    | cons y ys =>
      simp only [List.zip_cons_cons, List.mem_cons] at h
      have hx : x = y := h (x, y) (Or.inl rfl)
      simp only [List.length_cons, Nat.succ.injEq] at hl
      rw [hx, ih ys hl (fun p hp => h p (Or.inr hp))]

/-- A pair drawn from a list zipped with itself has equal components. -/
theorem mem_zip_self (l : List Nat) (p : Nat × Nat) (h : p ∈ l.zip l) :
    p.1 = p.2 := by
  induction l with
  | nil => simp at h
  | cons x xs ih =>
    simp only [List.zip_cons_cons, List.mem_cons] at h
    rcases h with h | h
    · rw [h]
    · exact ih h

/-- The modelled constant-time comparison decides equality of byte lists. -/
theorem subtleCtEq_eq_true (a b : List Nat) : subtleCtEq a b = true ↔ a = b := by
  unfold subtleCtEq
  simp only [Bool.and_eq_true, beq_iff_eq]
  constructor
  · rintro ⟨hl, hf⟩
    exact zip_forall_eq a b hl ((orFold_eq_zero _ 0).mp hf).2
  · rintro rfl
    exact ⟨rfl, (orFold_eq_zero _ 0).mpr ⟨rfl, fun p hp => mem_zip_self a p hp⟩⟩

/-- Hex digits of values below 16 are ASCII. -/
theorem hexDigit_lt (n : Nat) (h : n < 16) : (hexDigit n).toNat < 128 := by
  interval_cases n <;> decide

/-- The hex encoding of a byte list consists of ASCII characters only. -/
theorem hexEncode_ascii (bs : List Byte) : ∀ c ∈ hexEncode bs, c.toNat < 128 := by
  intro c hc
  simp only [hexEncode, List.mem_flatMap] at hc
  obtain ⟨b, _, hb⟩ := hc
  have hlt := b.isLt
  rcases List.mem_cons.mp hb with rfl | hb'
  · exact hexDigit_lt _ (by omega)
  · rcases List.mem_singleton.mp hb' with rfl
    exact hexDigit_lt _ (by omega)

/-- ASCII characters encode to their own code point. -/
theorem utf8Char_ascii (c : Char) (h : c.toNat < 128) : utf8Char c = [c.toNat] := by
  simp [utf8Char, h]

/-- The UTF-8 bytes of an all-ASCII string are its code points. -/
theorem utf8Bytes_ascii (s : Str) (h : ∀ c ∈ s, c.toNat < 128) :
    utf8Bytes s = s.map Char.toNat := by
  induction s with
  | nil => rfl
  | cons c cs ih =>
    have hc := h c (List.mem_cons_self c cs)
    have hcs := fun d hd => h d (List.mem_cons_of_mem c hd)
    simp only [utf8Bytes, List.flatMap_cons, List.map_cons]
    rw [utf8Char_ascii c hc]
    simpa [utf8Bytes] using ih hcs

/-- A character outside ASCII contributes a byte of value at least 128. -/
theorem utf8Char_high (c : Char) (h : 128 ≤ c.toNat) : ∃ b ∈ utf8Char c, 128 ≤ b := by
  simp only [utf8Char]
  split
  · omega
  · split
    · exact ⟨192 + c.toNat / 64, by simp, by omega⟩
    · split
      · exact ⟨224 + c.toNat / 4096, by simp, by omega⟩
      · exact ⟨240 + c.toNat / 262144, by simp, by omega⟩

/-- A string containing a character outside ASCII has a UTF-8 byte of value
at least 128. -/
theorem utf8Bytes_high (s : Str) (c : Char) (hc : c ∈ s) (h : 128 ≤ c.toNat) :
    ∃ b ∈ utf8Bytes s, 128 ≤ b := by
  obtain ⟨b, hb, hbb⟩ := utf8Char_high c h
  exact ⟨b, List.mem_flatMap.mpr ⟨c, hc, hb⟩, hbb⟩

/-- Characters with equal code points are equal. -/
theorem char_toNat_inj (c d : Char) (h : c.toNat = d.toNat) : c = d := by
  have := congrArg Char.ofNat h
  rwa [Char.ofNat_toNat, Char.ofNat_toNat] at this

/-- UTF-8 byte equality against an all-ASCII string decides string equality. -/
theorem utf8Bytes_eq_iff (s t : Str) (ht : ∀ c ∈ t, c.toNat < 128) :
    utf8Bytes s = utf8Bytes t ↔ s = t := by
  constructor
  · intro h
    by_cases hs : ∀ c ∈ s, c.toNat < 128
    · rw [utf8Bytes_ascii s hs, utf8Bytes_ascii t ht] at h
      exact List.map_injective_iff.mpr (fun a b => char_toNat_inj a b) h
    · push_neg at hs
      obtain ⟨c, hc, hcc⟩ := hs
      obtain ⟨b, hb, hbb⟩ := utf8Bytes_high s c hc (by omega)
      rw [h, utf8Bytes_ascii t ht] at hb
      obtain ⟨d, hd, rfl⟩ := List.mem_map.mp hb
      exact absurd (ht d hd) (by omega)
  · intro h
    rw [h]

/-- The guarded constant-time comparison in hmac.rs (length check plus
`ct_eq`) fails exactly when the two strings differ. -/
theorem sigCompare_iff (sig exp : Str) (hexp : ∀ c ∈ exp, c.toNat < 128) :
    ((utf8Bytes sig).length ≠ (utf8Bytes exp).length ∨
      subtleCtEq (utf8Bytes sig) (utf8Bytes exp) = false) ↔ sig ≠ exp := by
  have hiff := utf8Bytes_eq_iff sig exp hexp
  constructor
  · rintro (h | h) heq
    · exact h (by rw [heq])
    · rw [heq] at h
      have ht : subtleCtEq (utf8Bytes exp) (utf8Bytes exp) = true :=
        (subtleCtEq_eq_true _ _).mpr rfl
      rw [ht] at h
      exact Bool.noConfusion h
  · intro hne
    by_cases hl : (utf8Bytes sig).length = (utf8Bytes exp).length
    · right
      cases hct : subtleCtEq (utf8Bytes sig) (utf8Bytes exp)
      · rfl
      · exact absurd (hiff.mp ((subtleCtEq_eq_true _ _).mp hct)) hne
    · exact Or.inl hl

/-- Behaviour of the credential stage on a well-formed credential: after the
abstract base64/UTF-8 decode yields `hmac:{ts}.{sig}` with a parseable
timestamp, the result is decided first by the replay window and then by
string equality of the presented signature with the recomputed hex MAC. -/
theorem validate_credential_unfold
    (b64 : Str → Option (List Byte)) (u8 : List Byte → Option Str)
    (mac : Str → Str → List Byte)
    (enc : Str) (bs : List Byte) (tsStr sig key nid : Str) (ts tol now : Nat)
    (hb : b64 (rustTrim enc) = some bs)
    (hu : u8 bs = some ("hmac:".toList ++ tsStr ++ '.' :: sig))
    (hts : parseU64 tsStr = some ts) :
    validate_credential b64 u8 mac enc key nid tol now =
      if tol < absDiff now ts then .error .TimestampExpired
      else if sig = hexEncode (mac key (tsStr ++ '\n' :: nid)) then .ok ()
      else .error .SignatureMismatch := by
  have hdot : '.' ∉ tsStr := by
    intro hmem
    rcases parseU64_chars tsStr ts hts '.' hmem with h | h
    · exact absurd h (by decide)
    · exact absurd h (by decide)
  have hshape : "hmac:".toList ++ tsStr ++ '.' :: sig
      = "hmac".toList ++ ':' :: (tsStr ++ '.' :: sig) := rfl
  have hsplit1 : splitOnce ("hmac:".toList ++ tsStr ++ '.' :: sig) ':'
      = some ("hmac".toList, tsStr ++ '.' :: sig) := by
    rw [hshape]
    exact splitOnce_append _ _ _ (by decide)
  have hsplit2 : splitOnce (tsStr ++ '.' :: sig) '.' = some (tsStr, sig) :=
    splitOnce_append _ _ _ hdot
  have hascii := hexEncode_ascii (mac key (tsStr ++ '\n' :: nid))
  simp only [validate_credential, hb, hu, hsplit1, hsplit2, hts, ne_eq,
    not_true_eq_false, if_false, ite_false]
  by_cases hwin : tol < absDiff now ts
  · rw [if_pos hwin, if_pos hwin]
  · rw [if_neg hwin, if_neg hwin]
    by_cases hse : sig = hexEncode (mac key (tsStr ++ '\n' :: nid))
    · rw [if_neg (fun hAB => (sigCompare_iff sig _ hascii).mp hAB hse), if_pos hse]
    · rw [if_pos ((sigCompare_iff sig _ hascii).mpr hse), if_neg hse]

/-- Concrete base64 decoder instance for witness checks. -/
def wB64 : Str → Option (List Byte) := fun _ => some []

/-- Concrete UTF-8 reader instance whose credential is hmac:0.x. -/
def wU8x : List Byte → Option Str := fun _ => some "hmac:0.x".toList

/-- Concrete UTF-8 reader instance whose credential is hmac:0. with an empty
signature field. -/
def wU8empty : List Byte → Option Str := fun _ => some "hmac:0.".toList

/-- Concrete MAC instance returning the empty byte string. -/
def wMac0 : Str → Str → List Byte := fun _ _ => []

/-- C1: for every well-formed credential (Basic scheme, decodes to
hmac:ts.sig, parseable timestamp) whose timestamp is within tolerance,
validate_proxy_auth returns Ok exactly when the presented signature string
equals the lowercase hex encoding of HMAC-SHA256(hmac_key, ts-newline-node_id);
every other signature, of any length or content, is rejected with
SignatureMismatch. -/
theorem c1_signature_decides_acceptance
    (b64 : Str → Option (List Byte)) (u8 : List Byte → Option Str)
    (mac : Str → Str → List Byte)
    (enc : Str) (bs : List Byte) (tsStr sig key nid : Str) (ts tol now : Nat)
    (hb : b64 (rustTrim enc) = some bs)
    (hu : u8 bs = some ("hmac:".toList ++ tsStr ++ '.' :: sig))
    (hts : parseU64 tsStr = some ts)
    (hwin : absDiff now ts ≤ tol) :
    validate_proxy_auth b64 u8 mac (some ("Basic ".toList ++ enc)) key nid tol now =
      if sig = hexEncode (mac key (tsStr ++ '\n' :: nid)) then .ok ()
      else .error .SignatureMismatch := by
  simp only [validate_proxy_auth, dropPfx_append]
  rw [validate_credential_unfold b64 u8 mac enc bs tsStr sig key nid ts tol now hb hu hts]
  rw [if_neg (by omega)]

/-- Witness for C1 at a concrete mismatching signature. -/
theorem c1_signature_decides_acceptance_witness :
    validate_proxy_auth wB64 wU8x wMac0 (some ("Basic ".toList ++ []))
        "k".toList "N".toList 0 0 =
      if "x".toList = hexEncode (wMac0 "k".toList ("0".toList ++ '\n' :: "N".toList))
      then .ok () else .error .SignatureMismatch :=
  c1_signature_decides_acceptance wB64 wU8x wMac0 [] [] "0".toList "x".toList
    "k".toList "N".toList 0 0 0 (by rfl) (by decide) (by decide) (by decide)

/-- C2: with a well-formed credential and correct signature the verifier
accepts exactly on the closed replay window (boundary included, future
timestamps included); outside it the result is TimestampExpired regardless
of the MAC function, so the signature is neither computed nor compared. -/
theorem c2_replay_window
    (b64 : Str → Option (List Byte)) (u8 : List Byte → Option Str)
    (mac mac2 : Str → Str → List Byte)
    (enc : Str) (bs : List Byte) (tsStr sig key nid : Str) (ts tol now : Nat)
    (hb : b64 (rustTrim enc) = some bs)
    (hu : u8 bs = some ("hmac:".toList ++ tsStr ++ '.' :: sig))
    (hts : parseU64 tsStr = some ts) :
    (absDiff now ts ≤ tol → sig = hexEncode (mac key (tsStr ++ '\n' :: nid)) →
      validate_proxy_auth b64 u8 mac (some ("Basic ".toList ++ enc)) key nid tol now
        = .ok ())
    ∧ (tol < absDiff now ts →
      validate_proxy_auth b64 u8 mac (some ("Basic ".toList ++ enc)) key nid tol now
        = .error .TimestampExpired
      ∧ validate_proxy_auth b64 u8 mac2 (some ("Basic ".toList ++ enc)) key nid tol now
        = .error .TimestampExpired) := by
  have base : ∀ m : Str → Str → List Byte,
      validate_proxy_auth b64 u8 m (some ("Basic ".toList ++ enc)) key nid tol now =
        if tol < absDiff now ts then .error .TimestampExpired
        else if sig = hexEncode (m key (tsStr ++ '\n' :: nid)) then .ok ()
        else .error .SignatureMismatch := by
    intro m
    simp only [validate_proxy_auth, dropPfx_append]
    exact validate_credential_unfold b64 u8 m enc bs tsStr sig key nid ts tol now hb hu hts
  refine ⟨fun hwin hsig => ?_, fun hexp => ⟨?_, ?_⟩⟩
  · rw [base mac, if_neg (by omega), if_pos hsig]
  · rw [base mac, if_pos hexp]
  · rw [base mac2, if_pos hexp]

/-- Witness for C2: acceptance inside the window and expiry outside it. -/
theorem c2_replay_window_witness :
    validate_proxy_auth wB64 wU8empty wMac0 (some ("Basic ".toList ++ []))
        "k".toList "N".toList 0 0 = .ok ()
    ∧ validate_proxy_auth wB64 wU8empty wMac0 (some ("Basic ".toList ++ []))
        "k".toList "N".toList 0 10 = .error .TimestampExpired :=
  ⟨(c2_replay_window wB64 wU8empty wMac0 wMac0 [] [] "0".toList []
      "k".toList "N".toList 0 0 0 (by rfl) (by decide) (by decide)).1
      (by decide) (by decide),
   ((c2_replay_window wB64 wU8empty wMac0 wMac0 [] [] "0".toList []
      "k".toList "N".toList 0 0 10 (by rfl) (by decide) (by decide)).2
      (by decide)).1⟩

/-- C3 counterexample: an uppercase BASIC scheme token followed by a space
and a credential that the decoder accepts is nevertheless rejected at the
scheme-stripping step with InvalidBasicAuth, so the scheme token does not
match case-insensitively. -/
theorem c3_uppercase_scheme_rejected :
    validate_proxy_auth wB64 wU8x wMac0 (some "BASIC dGVzdA==".toList)
      "k".toList "N".toList 300 0 = .error .InvalidBasicAuth := by
  rfl

/-- C3 amended: only the two exact scheme spellings Basic and basic are
stripped and lead to credential decoding; a header matching neither exact
spelling fails with InvalidBasicAuth at the scheme-stripping step. -/
theorem c3_scheme_exact_casing
    (b64 : Str → Option (List Byte)) (u8 : List Byte → Option Str)
    (mac : Str → Str → List Byte)
    (h enc key nid : Str) (tol now : Nat) :
    (h = "Basic ".toList ++ enc ∨ h = "basic ".toList ++ enc →
      validate_proxy_auth b64 u8 mac (some h) key nid tol now
        = validate_credential b64 u8 mac enc key nid tol now)
    ∧ (dropPfx "Basic ".toList h = none → dropPfx "basic ".toList h = none →
      validate_proxy_auth b64 u8 mac (some h) key nid tol now
        = .error .InvalidBasicAuth) := by
  constructor
  · rintro (rfl | rfl)
    · simp only [validate_proxy_auth, dropPfx_append]
    · have hB : dropPfx "Basic ".toList ("basic ".toList ++ enc) = none := rfl
      simp only [validate_proxy_auth, hB, dropPfx_append]
  · intro h1 h2
    simp only [validate_proxy_auth, h1, h2]

/-- Witness for C3 amended at the lowercase spelling. -/
theorem c3_scheme_exact_casing_witness :
    validate_proxy_auth wB64 wU8x wMac0 (some ("basic ".toList ++ []))
        "k".toList "N".toList 0 0
      = validate_credential wB64 wU8x wMac0 [] "k".toList "N".toList 0 0 :=
  (c3_scheme_exact_casing wB64 wU8x wMac0 ("basic ".toList ++ []) []
    "k".toList "N".toList 0 0).1 (Or.inr rfl)

/-- Incoming HTTP request as the handlers observe it through hyper.  Header
names arrive normalized to lowercase by hyper, so stored names are the
normalized ones and the name comparisons in the source are plain equality.
`uriHost`/`uriPort` model `uri.host()`/`uri.port_u16()` (for CONNECT they
are the authority components), `uriPathAndQuery` models
`uri.path_and_query()`. -/
structure HttpRequest where
  method : Str
  version : Nat
  uriHost : Option Str
  uriPort : Option Nat
  uriPathAndQuery : Option Str
  headers : List (Str × Str)

/-- Response as built by the handlers (status, headers in insertion order,
body bytes). -/
structure HttpResponse where
  status : Nat
  headers : List (Str × Str)
  body : List Byte

/-- Model of `HeaderMap::get`: first header with the given name. -/
def getHeader (headers : List (Str × Str)) (name : Str) : Option Str :=
  (headers.find? (fun p => p.1 == name)).map (fun p => p.2)

/-- Outgoing upstream request built by `handle_plain` via `Request::builder`. -/
structure OutgoingRequest where
  method : Str
  version : Nat
  uri : Str
  headers : List (Str × Str)

/-- Observable result of `handle_plain` up to the first network effect:
either an early response to the client, or the sanitized outgoing request
about to be sent to `target_addr` (proxy/plain.rs). -/
inductive PlainStep where
  | respond (resp : HttpResponse)
  | forward (outgoing : OutgoingRequest) (target_addr : Str)

/-- Observable result of `handle_connect` up to the first network effect:
either an early response, or a tunnel dial to `target_addr`
(proxy/connect.rs). -/
inductive ConnectStep where
  | respond (resp : HttpResponse)
  | tunnel (target_addr : Str)

/-- Response helper `proxy_auth_required` of plain.rs (lines 142-149):
407 with Proxy-Authenticate and X-Error headers and the empty boxed body. -/
def plain_proxy_auth_required (msg : Str) : HttpResponse :=
  { status := 407
    headers := [("Proxy-Authenticate".toList, "HMAC-SHA256".toList),
                ("X-Error".toList, msg)]
    body := [] }

/-- Response helper `bad_request` of plain.rs. -/
def plain_bad_request (msg : Str) : HttpResponse :=
  { status := 400, headers := [("X-Error".toList, msg)], body := [] }

/-- Response helper `forbidden` of plain.rs. -/
def plain_forbidden (msg : Str) : HttpResponse :=
  { status := 403, headers := [("X-Error".toList, msg)], body := [] }

/-- Response helper `proxy_auth_required` of connect.rs (lines 101-109):
407 with Proxy-Authenticate, Content-Length 0 and X-Error, empty body. -/
def connect_proxy_auth_required (msg : Str) : HttpResponse :=
  { status := 407
    headers := [("Proxy-Authenticate".toList, "HMAC-SHA256".toList),
                ("Content-Length".toList, "0".toList),
                ("X-Error".toList, msg)]
    body := [] }

/-- Response helper `bad_request` of connect.rs. -/
def connect_bad_request (msg : Str) : HttpResponse :=
  { status := 400
    headers := [("Content-Length".toList, "0".toList), ("X-Error".toList, msg)]
    body := [] }

/-- Response helper `forbidden` of connect.rs. -/
def connect_forbidden (msg : Str) : HttpResponse :=
  { status := 403
    headers := [("Content-Length".toList, "0".toList), ("X-Error".toList, msg)]
    body := [] }

/-- Embedding of `handle_plain` (proxy/plain.rs lines 20-115) up to the
upstream dial.  `validate_target` abstracts
`target_filter::validate_target` (module not present in the sources;
errors map to 403): it returns the usable target address or an error
message.  The outgoing request copies method, version, the relative
`path?query` target (default /), and every header except
proxy-authorization and proxy-connection, in order. -/
def handle_plain
    (b64decode : Str → Option (List Byte))
    (fromUtf8 : List Byte → Option Str)
    (hmacSha256 : Str → Str → List Byte)
    (validate_target : Str → Nat → List Nat → Except Str Str)
    (req : HttpRequest) (hmac_key node_id : Str)
    (allowed_ports : List Nat) (timestamp_tolerance now : Nat) : PlainStep :=
  match validate_proxy_auth b64decode fromUtf8 hmacSha256
      (getHeader req.headers "proxy-authorization".toList)
      hmac_key node_id timestamp_tolerance now with
  | .error e => .respond (plain_proxy_auth_required (authErrorMessage e))
  | .ok _ =>
    match req.uriHost with
    | none => .respond (plain_bad_request "missing host in URI".toList)
    | some host =>
      match validate_target host (req.uriPort.getD 80) allowed_ports with
      | .error e => .respond (plain_forbidden e)
      | .ok target_addr =>
        .forward
          { method := req.method
            version := req.version
            uri := req.uriPathAndQuery.getD "/".toList
            headers := req.headers.filter (fun p =>
              !(p.1 == "proxy-authorization".toList ||
                p.1 == "proxy-connection".toList)) }
          target_addr

/-- Embedding of `handle_connect` (proxy/connect.rs lines 16-99) up to the
upstream dial; the default port for CONNECT is 443. -/
def handle_connect
    (b64decode : Str → Option (List Byte))
    (fromUtf8 : List Byte → Option Str)
    (hmacSha256 : Str → Str → List Byte)
    (validate_target : Str → Nat → List Nat → Except Str Str)
    (req : HttpRequest) (hmac_key node_id : Str)
    (allowed_ports : List Nat) (timestamp_tolerance now : Nat) : ConnectStep :=
  match validate_proxy_auth b64decode fromUtf8 hmacSha256
      (getHeader req.headers "proxy-authorization".toList)
      hmac_key node_id timestamp_tolerance now with
  | .error e => .respond (connect_proxy_auth_required (authErrorMessage e))
  | .ok _ =>
    match req.uriHost with
    | none => .respond (connect_bad_request "missing target authority".toList)
    | some host =>
      match validate_target host (req.uriPort.getD 443) allowed_ports with
      | .error e => .respond (connect_forbidden e)
      | .ok target_addr => .tunnel target_addr

/-- C4: whenever handle_plain proceeds to forward (auth and target filter
passed), the outgoing request drops exactly the Proxy-Authorization and
Proxy-Connection headers and preserves every other header with its name
and value, preserves method and version, and rewrites the target to the
relative path-and-query form, defaulting to the root path. -/
theorem c4_header_sanitation
    (b64 : Str → Option (List Byte)) (u8 : List Byte → Option Str)
    (mac : Str → Str → List Byte)
    (vt : Str → Nat → List Nat → Except Str Str)
    (req : HttpRequest) (key nid : Str) (allowed : List Nat) (tol now : Nat)
    (out : OutgoingRequest) (addr : Str)
    (h : handle_plain b64 u8 mac vt req key nid allowed tol now
      = .forward out addr) :
    out.method = req.method ∧ out.version = req.version
    ∧ out.uri = req.uriPathAndQuery.getD "/".toList
    ∧ getHeader out.headers "proxy-authorization".toList = none
    ∧ getHeader out.headers "proxy-connection".toList = none
    ∧ (∀ nm v, (nm, v) ∈ out.headers ↔
        ((nm, v) ∈ req.headers ∧ nm ≠ "proxy-authorization".toList
          ∧ nm ≠ "proxy-connection".toList)) := by
  unfold handle_plain at h
  split at h
  · exact absurd h (by simp)
  · split at h
    · exact absurd h (by simp)
    · split at h
      · exact absurd h (by simp)
      · rw [PlainStep.forward.injEq] at h
        obtain ⟨h1, h2⟩ := h
        subst h1
        subst h2
        refine ⟨rfl, rfl, rfl, ?_, ?_, ?_⟩
        · rw [getHeader]
          rw [List.find?_eq_none.mpr]
          · rfl
          · intro p hp
            have := (List.mem_filter.mp hp).2
            simp only [Bool.not_eq_eq_eq_not, Bool.not_true, Bool.or_eq_false_iff,
              beq_eq_false_iff_ne] at this
            simpa using this.1
        · rw [getHeader]
          rw [List.find?_eq_none.mpr]
          · rfl
          · intro p hp
            have := (List.mem_filter.mp hp).2
            simp only [Bool.not_eq_eq_eq_not, Bool.not_true, Bool.or_eq_false_iff,
              beq_eq_false_iff_ne] at this
            simpa using this.2
        · intro nm v
          constructor
          · intro hmem
            have h1 := (List.mem_filter.mp hmem).1
            have h2 := (List.mem_filter.mp hmem).2
            simp only [Bool.not_eq_eq_eq_not, Bool.not_true, Bool.or_eq_false_iff,
              beq_eq_false_iff_ne] at h2
            exact ⟨h1, h2.1, h2.2⟩
          · intro hmem
            refine List.mem_filter.mpr ⟨hmem.1, ?_⟩
            simp only [Bool.not_eq_eq_eq_not, Bool.not_true, Bool.or_eq_false_iff,
              beq_eq_false_iff_ne]
            exact ⟨hmem.2.1, hmem.2.2⟩

/-- Permissive target filter instance for witness checks. -/
def wVT : Str → Nat → List Nat → Except Str Str := fun h _ _ => .ok h

/-- Concrete request instance carrying a credential accepted by the witness
decoder instances, one ordinary header, and a Proxy-Connection header. -/
def wReqAuthed : HttpRequest :=
  { method := "GET".toList
    version := 11
    uriHost := some "example.com".toList
    uriPort := none
    uriPathAndQuery := some "/idx".toList
    headers := [("proxy-authorization".toList, "Basic ".toList),
                ("host".toList, "example.com".toList),
                ("proxy-connection".toList, "keep-alive".toList)] }

/-- Expected sanitized outgoing request for the C4 witness. -/
def wOutSanitized : OutgoingRequest :=
  { method := "GET".toList
    version := 11
    uri := "/idx".toList
    headers := [("host".toList, "example.com".toList)] }

/-- Witness for C4 at a concrete forwarded request. -/
theorem c4_header_sanitation_witness :
    wOutSanitized.method = wReqAuthed.method
    ∧ wOutSanitized.version = wReqAuthed.version
    ∧ wOutSanitized.uri = wReqAuthed.uriPathAndQuery.getD "/".toList
    ∧ getHeader wOutSanitized.headers "proxy-authorization".toList = none
    ∧ getHeader wOutSanitized.headers "proxy-connection".toList = none
    ∧ (∀ nm v, (nm, v) ∈ wOutSanitized.headers ↔
        ((nm, v) ∈ wReqAuthed.headers ∧ nm ≠ "proxy-authorization".toList
          ∧ nm ≠ "proxy-connection".toList)) :=
  c4_header_sanitation wB64 wU8empty wMac0 wVT wReqAuthed "k".toList "N".toList
    [] 0 0 wOutSanitized "example.com".toList (by rfl)

/-- C5: on any auth failure, of any of the seven error kinds, both the plain
handler and the CONNECT handler answer immediately (no forward or tunnel
step) with status 407, a Proxy-Authenticate header valued HMAC-SHA256, and
an empty body. -/
theorem c5_auth_failure_407
    (b64 : Str → Option (List Byte)) (u8 : List Byte → Option Str)
    (mac : Str → Str → List Byte)
    (vt : Str → Nat → List Nat → Except Str Str)
    (req : HttpRequest) (key nid : Str) (allowed : List Nat) (tol now : Nat)
    (e : AuthError)
    (h : validate_proxy_auth b64 u8 mac
        (getHeader req.headers "proxy-authorization".toList) key nid tol now
      = .error e) :
    handle_plain b64 u8 mac vt req key nid allowed tol now
      = .respond (plain_proxy_auth_required (authErrorMessage e))
    ∧ handle_connect b64 u8 mac vt req key nid allowed tol now
      = .respond (connect_proxy_auth_required (authErrorMessage e))
    ∧ (plain_proxy_auth_required (authErrorMessage e)).status = 407
    ∧ getHeader (plain_proxy_auth_required (authErrorMessage e)).headers
        "Proxy-Authenticate".toList = some "HMAC-SHA256".toList
    ∧ (plain_proxy_auth_required (authErrorMessage e)).body = []
    ∧ (connect_proxy_auth_required (authErrorMessage e)).status = 407
    ∧ getHeader (connect_proxy_auth_required (authErrorMessage e)).headers
        "Proxy-Authenticate".toList = some "HMAC-SHA256".toList
    ∧ (connect_proxy_auth_required (authErrorMessage e)).body = [] := by
  refine ⟨?_, ?_, rfl, rfl, rfl, rfl, rfl, rfl⟩
  · simp only [handle_plain, h]
  · simp only [handle_connect, h]

/-- Concrete request instance with no Proxy-Authorization header. -/
def wReqNoAuth : HttpRequest :=
  { method := "GET".toList
    version := 11
    uriHost := some "example.com".toList
    uriPort := none
    uriPathAndQuery := some "/".toList
    headers := [] }

/-- Witness for C5 at a request with no Proxy-Authorization header. -/
theorem c5_auth_failure_407_witness :
    handle_plain wB64 wU8x wMac0 wVT wReqNoAuth "k".toList "N".toList [] 300 0
      = .respond (plain_proxy_auth_required (authErrorMessage .MissingHeader))
    ∧ handle_connect wB64 wU8x wMac0 wVT wReqNoAuth "k".toList "N".toList [] 300 0
      = .respond (connect_proxy_auth_required (authErrorMessage .MissingHeader))
    ∧ (plain_proxy_auth_required (authErrorMessage .MissingHeader)).status = 407
    ∧ getHeader (plain_proxy_auth_required (authErrorMessage .MissingHeader)).headers
        "Proxy-Authenticate".toList = some "HMAC-SHA256".toList
    ∧ (plain_proxy_auth_required (authErrorMessage .MissingHeader)).body = []
    ∧ (connect_proxy_auth_required (authErrorMessage .MissingHeader)).status = 407
    ∧ getHeader (connect_proxy_auth_required (authErrorMessage .MissingHeader)).headers
        "Proxy-Authenticate".toList = some "HMAC-SHA256".toList
    ∧ (connect_proxy_auth_required (authErrorMessage .MissingHeader)).body = [] :=
  c5_auth_failure_407 wB64 wU8x wMac0 wVT wReqNoAuth
    "k".toList "N".toList [] 300 0 .MissingHeader (by rfl)

/-- Remote configuration pushed by the management backend
(registration/client.rs lines 62-69). -/
structure RemoteConfig where
  node_name : Option Str
  allowed_ports : Option (List Nat)
  log_level : Option Str
  heartbeat_interval : Option Nat
  timestamp_tolerance : Option Nat

/-- Node object inside a heartbeat response (client.rs lines 78-84); both
fields default to absent. -/
structure HeartbeatNodeInfo where
  remote_config : Option RemoteConfig
  config_version : Option Nat

/-- Parsed heartbeat response body (client.rs lines 72-76); the node field
defaults to absent. -/
structure HeartbeatResponseBody where
  node : Option HeartbeatNodeInfo

/-- Heartbeat result returned to the caller (client.rs lines 87-91). -/
structure HeartbeatResult where
  remote_config : Option RemoteConfig
  config_version : Nat

/-- Heartbeat-specific error (client.rs lines 10-16). -/
inductive HeartbeatError where
  | NodeNotFound (msg : Str)
  | Other (msg : Str)

/-- Model of reqwest `StatusCode::is_success`: the 2xx range. -/
def statusIsSuccess (status : Nat) : Bool :=
  200 ≤ status && status < 300

/-- Outcome of the HTTP exchange inside `heartbeat` as the embedded code
observes it: either the send failed in transport, or a response arrived
with a status, a body text, and the best-effort result of parsing the body
as `HeartbeatResponseBody` (serde is a library and is abstracted by the
`parsed` field). -/
inductive HttpOutcome where
  | transportError (msg : Str)
  | response (status : Nat) (text : Str) (parsed : Option HeartbeatResponseBody)

/-- Embedding of `AetherClient::heartbeat` (client.rs lines 175-238) as a
function of the HTTP outcome.  Transport errors become Other; non-success
statuses become NodeNotFound exactly on 404 and Other otherwise (the Other
message carries the response text); success statuses always yield Ok, with
an absent or unparseable body treated as no configuration change. -/
def heartbeat : HttpOutcome → Except HeartbeatError HeartbeatResult
  | .transportError m => .error (.Other m)
  | .response status text parsed =>
    if !statusIsSuccess status then
      if status = 404 then .error (.NodeNotFound text)
      else .error (.Other ("heartbeat failed: ".toList ++ text))
    else
      match parsed with
      | some body =>
        match body.node with
        | some node =>
          .ok { remote_config := node.remote_config
                config_version := node.config_version.getD 0 }
        | none => .ok { remote_config := none, config_version := 0 }
      | none => .ok { remote_config := none, config_version := 0 }

/-- Classification of heartbeat results by error kind. -/
inductive HeartbeatClass where
  | ok
  | nodeNotFound
  | otherError
deriving DecidableEq

/-- Class of a heartbeat result. -/
def classifyHeartbeat : Except HeartbeatError HeartbeatResult → HeartbeatClass
  | .ok _ => .ok
  | .error (.NodeNotFound _) => .nodeNotFound
  | .error (.Other _) => .otherError

/-- Classification the claim prescribes per HTTP outcome (written from the
specification words, for comparison with the code): NodeNotFound exactly on
status 404, Ok exactly on 2xx, Other for every other status and for every
transport failure. -/
def specHeartbeatClass : HttpOutcome → HeartbeatClass
  | .transportError _ => .otherError
  | .response status _ _ =>
    if statusIsSuccess status then .ok
    else if status = 404 then .nodeNotFound
    else .otherError

/-- C6: heartbeat returns NodeNotFound exactly when the controller answered
HTTP 404; every other non-2xx status and every transport failure returns
Other, and every 2xx status yields Ok. -/
theorem c6_heartbeat_error_mapping (o : HttpOutcome) :
    classifyHeartbeat (heartbeat o) = specHeartbeatClass o := by
  cases o with
  | transportError m => rfl
  | response status text parsed =>
    by_cases hs : statusIsSuccess status = true
    · obtain _ | body := parsed
      · simp [heartbeat, classifyHeartbeat, specHeartbeatClass, hs]
      · obtain ⟨n⟩ := body
        obtain _ | node := n
        · simp [heartbeat, classifyHeartbeat, specHeartbeatClass, hs]
        · simp [heartbeat, classifyHeartbeat, specHeartbeatClass, hs]
    · have hs' : statusIsSuccess status = false := by rwa [Bool.not_eq_true] at hs
      by_cases h4 : status = 404
      · subst h4
        simp [heartbeat, classifyHeartbeat, specHeartbeatClass, hs']
      · simp [heartbeat, classifyHeartbeat, specHeartbeatClass, hs', h4]

/-- C10: a 2xx response whose body fails to parse, and a 2xx parsed body
without a node object, both yield Ok with no remote config and version 0. -/
theorem c10_lenient_success_body (status : Nat) (text : Str)
    (h : statusIsSuccess status = true) :
    heartbeat (.response status text none)
      = .ok { remote_config := none, config_version := 0 }
    ∧ heartbeat (.response status text (some { node := none }))
      = .ok { remote_config := none, config_version := 0 } := by
  constructor <;> simp [heartbeat, h]

/-- Witness for C10 at status 200. -/
theorem c10_lenient_success_body_witness :
    heartbeat (.response 200 [] none)
      = .ok { remote_config := none, config_version := 0 }
    ∧ heartbeat (.response 200 [] (some { node := none }))
      = .ok { remote_config := none, config_version := 0 } :=
  c10_lenient_success_body 200 [] (by decide)

/-- Largest value of a Rust u64. -/
def u64Max : Nat := 18446744073709551615

/-- Model of `u64::saturating_sub` on values within u64 range. -/
def saturatingSub64 (a b : Nat) : Nat := a - b

/-- Model of `u64::saturating_mul` on values within u64 range. -/
def saturatingMul64 (a b : Nat) : Nat := min (a * b) u64Max

/-- Concurrency estimate of `hardware::collect` (hardware.rs lines 40-44):
min of the saturating fd budget, memory budget, and cpu budget.
`cpu_cores` is a u32 cast to u64 in the source. -/
def estimated_max_concurrency (fd_limit total_memory_mb cpu_cores : Nat) : Nat :=
  min (min (saturatingSub64 fd_limit 100)
        (saturatingMul64 total_memory_mb 40))
    (saturatingMul64 cpu_cores 2000)

/-- C9: for every u64 fd limit and memory size and every u32 core count, the
computed estimate equals the exact natural-number minimum
min(fd_limit - 100, memory_mb * 40, cpu_cores * 2000), with the
subtraction truncated at zero; the saturating multiplications of the
source never change the minimum. -/
theorem c9_concurrency_formula (fd mem cpu : Nat)
    (hfd : fd ≤ u64Max) (hmem : mem ≤ u64Max) (hcpu : cpu < 4294967296) :
    estimated_max_concurrency fd mem cpu
      = min (min (fd - 100) (mem * 40)) (cpu * 2000) := by
  have h1 : cpu * 2000 ≤ 4294967295 * 2000 :=
    Nat.mul_le_mul (by omega) (le_refl 2000)
  simp only [estimated_max_concurrency, saturatingSub64, saturatingMul64, u64Max] at *
  omega

/-- Witness for C9 at a fd limit below 100. -/
theorem c9_concurrency_formula_witness :
    estimated_max_concurrency 50 3 2 = min (min (50 - 100) (3 * 40)) (2 * 2000) :=
  c9_concurrency_formula 50 3 2 (by decide) (by decide) (by decide)

/-- Built-in default for allowed destination ports (config.rs line 47). -/
def default_allowed_ports : List Nat := [80, 443, 8080, 8443]

/-- Clap resolution of the `allowed_ports` field (config.rs lines 46-48):
the comma-separated list supplied by CLI flag, environment variable, or the
TOML values injected into the environment when present, otherwise the
built-in default.  No filtering of any kind is applied. -/
def resolve_allowed_ports (provided : Option (List Nat)) : List Nat :=
  provided.getD default_allowed_ports

/-- Modelled from the spec: the heartbeat reconciler (spec 4.J; the module
applying remote config is not under src/) atomically replaces
`allowed_ports` with the remote list when `remote_config.allowed_ports` is
present and keeps the current set otherwise; the spec prescribes no
filtering of the list. -/
def apply_remote_allowed_ports (current : List Nat) (rc : RemoteConfig) : List Nat :=
  rc.allowed_ports.getD current

/-- C8 counterexample: supplying the list containing port 0 through the
flag/environment/TOML path puts 0 into allowed_ports, so the set is not
guaranteed to never contain 0. -/
theorem c8_port_zero_reachable : 0 ∈ resolve_allowed_ports (some [0]) := by
  decide

/-- C8 amended: allowed_ports contains 0 exactly when the populated source
itself lists 0 - the built-in default does not contain 0, and neither the
clap resolution nor the remote-config application inserts or filters 0. -/
theorem c8_port_zero_only_from_sources (o : Option (List Nat)) (cur : List Nat)
    (rc : RemoteConfig) :
    (0 ∈ resolve_allowed_ports o ↔ ∃ l, o = some l ∧ 0 ∈ l)
    ∧ 0 ∉ default_allowed_ports
    ∧ (0 ∈ apply_remote_allowed_ports cur rc ↔
        (∃ l, rc.allowed_ports = some l ∧ 0 ∈ l)
        ∨ (rc.allowed_ports = none ∧ 0 ∈ cur)) := by
  refine ⟨?_, by decide, ?_⟩
  · cases o with
    | none => simp [resolve_allowed_ports, default_allowed_ports]
    | some l => simp [resolve_allowed_ports]
  · cases h : rc.allowed_ports with
    | none => simp [apply_remote_allowed_ports, h]
    | some l => simp [apply_remote_allowed_ports, h]

/-- Operations a spawned connection task performs that matter to the
active-connection gauge: serving the connection, and the single
`fetch_sub(1)` executed when the task exits. -/
inductive ConnOp where
  | serve
  | decr
deriving DecidableEq, Repr

/-- Operation trace of one spawned connection task (server.rs lines 57-89):
with a TLS acceptor present and a ClientHello first byte, the task serves
only when the handshake succeeds and then decrements and returns; on every
other path it serves the plain connection and then decrements. -/
def taskOps (hasAcceptor isHello handshakeOk : Bool) : List ConnOp :=
  if hasAcceptor && isHello then
    (if handshakeOk then [ConnOp.serve] else []) ++ [ConnOp.decr]
  else [ConnOp.serve, ConnOp.decr]

/-- State of the accept loop's world: the atomic gauge value and the
remaining operations of every spawned task. -/
structure ServerState where
  counter : Nat
  tasks : List (List ConnOp)

/-- Effect of one task operation on the gauge (`fetch_sub(1)` models as a
decrement; `serve` does not touch the gauge). -/
def applyOp (c : Nat) : ConnOp → Nat
  | .serve => c
  | .decr => c - 1

/-- Interleaving semantics of server.rs `run`: an accepted connection first
increments the gauge (line 55) and then spawns its task (line 57); any
spawned task may execute its next operation at any time. -/
inductive ServerStep : ServerState → ServerState → Prop where
  | accept (c : Nat) (ts : List (List ConnOp)) (hasA isH hsOk : Bool) :
      ServerStep ⟨c, ts⟩ ⟨c + 1, taskOps hasA isH hsOk :: ts⟩
  | runOp (c : Nat) (pre post : List (List ConnOp)) (op : ConnOp)
      (rest : List ConnOp) :
      ServerStep ⟨c, pre ++ (op :: rest) :: post⟩ ⟨applyOp c op, pre ++ rest :: post⟩

/-- States reachable from an idle server whose gauge reads `c0`. -/
inductive ServerReachable (c0 : Nat) : ServerState → Prop where
  | init : ServerReachable c0 ⟨c0, []⟩
  | step {s s'} (h : ServerReachable c0 s) (hs : ServerStep s s') :
      ServerReachable c0 s'

/-- Number of gauge decrements still owed by the spawned tasks. -/
def pendingDecrs (ts : List (List ConnOp)) : Nat :=
  (ts.map (fun ops => ops.count ConnOp.decr)).sum

/-- Decomposition of the owed decrements around one task. -/
theorem pendingDecrs_append (pre post : List (List ConnOp)) (mid : List ConnOp) :
    pendingDecrs (pre ++ mid :: post)
      = pendingDecrs pre + mid.count ConnOp.decr + pendingDecrs post := by
  simp [pendingDecrs, List.map_append, List.sum_append]
  omega

/-- Every connection path owes exactly one decrement. -/
theorem taskOps_one_decr (hasA isH hsOk : Bool) :
    (taskOps hasA isH hsOk).count ConnOp.decr = 1 := by
  unfold taskOps
  split
  · split <;> rfl
  · rfl

/-- Gauge invariant: at every reachable state the gauge reads the initial
value plus the number of decrements still owed by live tasks. -/
theorem server_gauge_invariant (c0 : Nat) (s : ServerState)
    (h : ServerReachable c0 s) :
    s.counter = c0 + pendingDecrs s.tasks := by
  induction h with
  | init => simp [pendingDecrs]
  | step h hs ih =>
    cases hs with
    | accept c ts hasA isH hsOk =>
      simp only [pendingDecrs, List.map_cons, List.sum_cons] at *
      rw [taskOps_one_decr]
      omega
    | runOp c pre post op rest =>
      rw [pendingDecrs_append] at ih
      simp only [pendingDecrs_append]
      cases op with
      | serve =>
        have hc : (ConnOp.serve :: rest).count ConnOp.decr
            = rest.count ConnOp.decr := by
          simp [List.count_cons]
        rw [hc] at ih
        simpa [applyOp] using ih
      | decr =>
        have hc : (ConnOp.decr :: rest).count ConnOp.decr
            = rest.count ConnOp.decr + 1 := by
          simp [List.count_cons]
        rw [hc] at ih
        have ih' : c = c0 + (pendingDecrs pre
            + (rest.count ConnOp.decr + 1) + pendingDecrs post) := ih
        simp only [applyOp]
        omega

/-- C7: every accepted connection increments the gauge once before its task
starts and every task path owes exactly one decrement; consequently at
every reachable state the gauge equals the initial value plus the owed
decrements, never drops below the initial value (in particular it stays
non-negative and a decrement never underflows), and returns to the initial
value whenever all spawned tasks have finished. -/
theorem c7_counter_conservation (c0 : Nat) (s : ServerState)
    (h : ServerReachable c0 s) :
    (∀ hasA isH hsOk, (taskOps hasA isH hsOk).count ConnOp.decr = 1)
    ∧ s.counter = c0 + pendingDecrs s.tasks
    ∧ c0 ≤ s.counter
    ∧ (∀ pre rest post, s.tasks = pre ++ (ConnOp.decr :: rest) :: post →
        1 ≤ s.counter)
    ∧ (pendingDecrs s.tasks = 0 → s.counter = c0) := by
  have inv := server_gauge_invariant c0 s h
  refine ⟨taskOps_one_decr, inv, by omega, ?_, fun hz => by omega⟩
  intro pre rest post hts
  rw [hts] at inv
  rw [pendingDecrs_append] at inv
  have hc : (ConnOp.decr :: rest).count ConnOp.decr
      = rest.count ConnOp.decr + 1 := by
    simp [List.count_cons]
  rw [hc] at inv
  omega

/-- Witness for C7 after one accepted plain connection. -/
theorem c7_counter_conservation_witness :
    (∀ hasA isH hsOk, (taskOps hasA isH hsOk).count ConnOp.decr = 1)
    ∧ (⟨1, [[ConnOp.serve, ConnOp.decr]]⟩ : ServerState).counter
        = 0 + pendingDecrs (⟨1, [[ConnOp.serve, ConnOp.decr]]⟩ : ServerState).tasks
    ∧ 0 ≤ (⟨1, [[ConnOp.serve, ConnOp.decr]]⟩ : ServerState).counter
    ∧ (∀ pre rest post,
        (⟨1, [[ConnOp.serve, ConnOp.decr]]⟩ : ServerState).tasks
          = pre ++ (ConnOp.decr :: rest) :: post →
        1 ≤ (⟨1, [[ConnOp.serve, ConnOp.decr]]⟩ : ServerState).counter)
    ∧ (pendingDecrs (⟨1, [[ConnOp.serve, ConnOp.decr]]⟩ : ServerState).tasks = 0 →
        (⟨1, [[ConnOp.serve, ConnOp.decr]]⟩ : ServerState).counter = 0) :=
  c7_counter_conservation 0 ⟨1, [[ConnOp.serve, ConnOp.decr]]⟩
    (ServerReachable.step ServerReachable.init
      (ServerStep.accept 0 [] false false false))
